import Mathlib

/-!
A shallow embedding of `source/ingest_app_csv/app.py` from the iot-samples
repository: a script that replays time-series IoT sensor readings from a CSV
file into attributes on a live USD layer.

Modelling conventions:
* A CSV row (`Row`) carries the `Id`, `TimeStamp` and `Value` columns.
  Raw timestamps are integers in milliseconds; `pandas.dt.floor("s")`
  becomes flooring division by 1000, yielding whole seconds, so the
  `total_seconds()` arithmetic of the script is exact integer arithmetic.
  Sample values are carried as exact rationals: the script copies values
  through without arithmetic, so the carrier type is irrelevant.
* An `Sdf.Layer`'s state relevant to the script (`Layer`) is whether the
  `/iot` root prim and the `/iot/{topic}` prim exist, and the list of
  attribute specs on the topic prim, each with a name, a type name and an
  optional default value.
* `Sdf.ChangeBlock` realises the collaborator's atomic-edit-unit contract:
  attribute writes inside one block form one edit unit; a write outside any
  block is its own singleton unit.  `write_to_live` therefore returns, along
  with the updated layer, the list of edit units it produced, in order.
* Exceptions become `Except`/`Option String` error values; once an error is
  raised, no further statement of the Python function runs.
* External calls of `initialize_async` (stat, copy, stage open, layer
  find-or-open/create) have environment-dependent results; these results
  are inputs (`Env`), and the function is deterministic in them.
-/

/-- One CSV input row: columns `Id`, `TimeStamp` (raw, in milliseconds) and
`Value`. -/
structure Row where
  Id : String
  TimeStamp : Int
  Value : Rat
deriving DecidableEq, Repr

/-- One attribute spec on the topic prim: a name, a value-type name
(always `"double"` here, from `Sdf.ValueTypeNames.Double`) and the current
default value, if one has been set. -/
structure AttrSpec where
  name : String
  typeName : String
  default : Option Rat
deriving DecidableEq, Repr

/-- The state of the live `Sdf.Layer` that the script reads and writes:
whether the `/iot` root prim exists, whether the `/iot/{topic}` prim
exists, and that prim's attribute specs in declaration order. -/
structure Layer where
  hasIotRoot : Bool
  hasTopicPrim : Bool
  attrs : List AttrSpec
deriving DecidableEq, Repr

/-- `live_layer.GetAttributeAtPath` finds an attribute: true iff an
attribute of that name exists on the topic prim. -/
def Layer.hasAttr (l : Layer) (n : String) : Bool :=
  l.attrs.any (fun a => a.name = n)

/-- `iot_spec.RemoveProperty(attrib)`: removes the attribute of that name. -/
def removeProperty (attrs : List AttrSpec) (n : String) : List AttrSpec :=
  attrs.filter (fun a => a.name ≠ n)

/-- The clearing loop of `initialize_device_prim` (app.py lines 67-68):
`for attrib in iot_spec.attributes: iot_spec.RemoveProperty(attrib)` —
iterates over the attributes present at entry and removes each. -/
def clearAttributes (attrs : List AttrSpec) : List AttrSpec :=
  attrs.foldl (fun acc a => removeProperty acc a.name) attrs

/-- `Sdf.AttributeSpec(iot_spec, name, Sdf.ValueTypeNames.Double)`: declares
a fresh double-typed attribute; fails (returns an invalid spec) when an
attribute of that name already exists. -/
def addAttr (attrs : List AttrSpec) (n : String) : Option (List AttrSpec) :=
  if attrs.any (fun a => a.name = n) then none
  else some (attrs ++ [⟨n, "double", none⟩])

/-- `pandas.groupby` iterates the distinct keys in ascending order. -/
def sortedKeys {α : Type} [LinearOrder α] (l : List α) : List α :=
  List.insertionSort (· ≤ ·) l.dedup

/-- Lexicographic comparison of character lists by code point. -/
def chLe : List Char → List Char → Bool
  | [], _ => true
  | _ :: _, [] => false
  | c :: cs, d :: ds =>
    if c.val < d.val then true
    else if d.val < c.val then false
    else chLe cs ds

/-- Python's string order: lexicographic by code point. -/
def strLe (a b : String) : Bool := chLe a.data b.data

/-- `pandas.groupby("Id")` iterates the distinct `Id` strings in ascending
(code-point lexicographic) order. -/
def sortedIds (l : List String) : List String :=
  List.insertionSort (fun a b => strLe a b) l.dedup

/-- The attribute-declaration loop of `initialize_device_prim`
(app.py lines 81-85): one `Sdf.AttributeSpec` per distinct `Id`,
raising if any declaration fails. -/
def addAttrs (attrs : List AttrSpec) : List String → Except String (List AttrSpec)
  | [] => .ok attrs
  | n :: rest =>
    match addAttr attrs n with
    | none => .error ("Could not define the attribute: " ++ n)
    | some a => addAttrs a rest

/-- `initialize_device_prim(live_layer, iot_topic)` (app.py lines 45-85):
ensures the `/iot` root and `/iot/{iot_topic}` prims exist, removes every
attribute already on the topic prim, then declares the `_ts` double
attribute and one double attribute per distinct `Id` in the topic's CSV.
The CSV contents are passed as `rows`. -/
def initialize_device_prim (live_layer : Layer) (rows : List Row) :
    Except String Layer :=
  match addAttr (clearAttributes live_layer.attrs) "_ts" with
  | none => .error "Could not define the attribute: _ts"
  | some a1 =>
    match addAttrs a1 (sortedIds (rows.map (fun r => r.Id))) with
    | .error e => .error e
    | .ok a2 => .ok ⟨true, true, a2⟩

section ClearLemmas

/-- Membership in the clearing fold: the element is in the initial list and
survives every removal. -/
theorem mem_clear_fold :
    ∀ (l init : List AttrSpec) (x : AttrSpec),
      x ∈ l.foldl (fun acc a => removeProperty acc a.name) init →
      x ∈ init ∧ ∀ a ∈ l, x.name ≠ a.name := by
  intro l
  induction l with
  | nil => intro init x hx; exact ⟨hx, by simp⟩
  | cons a l ih =>
    intro init x hx
    simp only [List.foldl_cons] at hx
    obtain ⟨hmem, hall⟩ := ih (removeProperty init a.name) x hx
    unfold removeProperty at hmem
    rw [List.mem_filter] at hmem
    refine ⟨hmem.1, ?_⟩
    intro b hb
    rcases List.mem_cons.mp hb with h | h
    · subst h; exact of_decide_eq_true hmem.2
    · exact hall b h

/-- The clearing loop removes every attribute: afterwards the spec has no
attributes, whatever was on it before. -/
theorem clearAttributes_eq_nil (attrs : List AttrSpec) :
    clearAttributes attrs = [] := by
  unfold clearAttributes
  by_contra h
  obtain ⟨x, hx⟩ := List.exists_mem_of_ne_nil _ h
  obtain ⟨hmem, hall⟩ := mem_clear_fold attrs attrs x hx
  exact hall x hmem rfl

end ClearLemmas

section InitializerLemmas

/-- `sortedKeys` has the same members as the input list. -/
theorem mem_sortedKeys {α : Type} [LinearOrder α] (l : List α) (x : α) :
    x ∈ sortedKeys l ↔ x ∈ l := by
  unfold sortedKeys
  rw [(List.perm_insertionSort (· ≤ ·) l.dedup).mem_iff, List.mem_dedup]

/-- `sortedKeys` has no duplicate elements. -/
theorem sortedKeys_nodup {α : Type} [LinearOrder α] (l : List α) :
    (sortedKeys l).Nodup :=
  (List.perm_insertionSort (· ≤ ·) l.dedup).nodup_iff.mpr l.nodup_dedup

/-- `sortedKeys` is sorted by `≤`. -/
theorem sortedKeys_sorted {α : Type} [LinearOrder α] (l : List α) :
    (sortedKeys l).Sorted (· ≤ ·) :=
  List.sorted_insertionSort (· ≤ ·) l.dedup

/-- `sortedKeys` is strictly sorted. -/
theorem sortedKeys_sorted_lt {α : Type} [LinearOrder α] (l : List α) :
    (sortedKeys l).Sorted (· < ·) := by
  have hs := sortedKeys_sorted l
  have hn := sortedKeys_nodup l
  exact (List.Pairwise.and hs hn).imp (fun h => lt_of_le_of_ne h.1 h.2)

/-- `sortedIds` has the same members as the input list. -/
theorem mem_sortedIds (l : List String) (x : String) :
    x ∈ sortedIds l ↔ x ∈ l := by
  unfold sortedIds
  rw [(List.perm_insertionSort _ l.dedup).mem_iff, List.mem_dedup]

/-- Helper: names present after `addAttrs` over a duplicate-free name list
disjoint from the accumulator. -/
theorem addAttrs_ok_names (names : List String) :
    ∀ (attrs res : List AttrSpec),
      addAttrs attrs names = .ok res →
      (∀ a : AttrSpec, a ∈ res ↔ (a ∈ attrs ∨ ∃ n ∈ names, a = ⟨n, "double", none⟩)) := by
  induction names with
  | nil =>
    intro attrs res h a
    simp only [addAttrs] at h
    cases h
    simp
  | cons n rest ih =>
    intro attrs res h a
    simp only [addAttrs] at h
    split at h
    · exact absurd h (by simp)
    · have := ih _ _ h a
      rename_i a1 heq
      unfold addAttr at heq
      split at heq
      · exact absurd heq (by simp)
      · cases heq
        rw [this]
        constructor
        · rintro (hm | ⟨m, hm, rfl⟩)
          · rcases List.mem_append.mp hm with h1 | h1
            · exact Or.inl h1
            · simp only [List.mem_singleton] at h1
              exact Or.inr ⟨n, by simp, h1⟩
          · exact Or.inr ⟨m, by simp [hm], rfl⟩
        · rintro (hm | ⟨m, hm, rfl⟩)
          · exact Or.inl (List.mem_append.mpr (Or.inl hm))
          · rcases List.mem_cons.mp hm with rfl | h1
            · exact Or.inl (List.mem_append.mpr (Or.inr (by simp)))
            · exact Or.inr ⟨m, h1, rfl⟩

/-- C5 (Slot Set): whenever the Initializer succeeds, the attributes on the
topic prim are exactly the reserved `_ts` slot plus one slot per distinct
`Id` value in the CSV, each with the double value type. -/
theorem initialize_device_prim_slot_set (live_layer : Layer) (rows : List Row)
    (l' : Layer) (h : initialize_device_prim live_layer rows = .ok l') :
    (∀ n : String, l'.hasAttr n = true ↔ (n = "_ts" ∨ n ∈ rows.map (fun r => r.Id))) ∧
    (∀ a ∈ l'.attrs, a.typeName = "double") := by
  unfold initialize_device_prim at h
  rw [clearAttributes_eq_nil] at h
  simp only [addAttr, List.any_nil, Bool.false_eq_true, if_false, List.nil_append] at h
  split at h
  · exact absurd h (by simp)
  · rename_i a2 hadd
    cases h
    have hmem := addAttrs_ok_names _ _ _ hadd
    constructor
    · intro n
      unfold Layer.hasAttr
      simp only [List.any_eq_true, decide_eq_true_eq]
      constructor
      · rintro ⟨a, ha, rfl⟩
        rcases (hmem a).mp ha with h1 | ⟨m, hm, rfl⟩
        · simp only [List.mem_singleton] at h1
          subst h1; exact Or.inl rfl
        · exact Or.inr ((mem_sortedIds _ _).mp hm)
      · rintro (rfl | hn)
        · exact ⟨⟨"_ts", "double", none⟩, (hmem _).mpr (Or.inl (by simp)), rfl⟩
        · exact ⟨⟨n, "double", none⟩,
            (hmem _).mpr (Or.inr ⟨n, (mem_sortedIds _ _).mpr hn, rfl⟩), rfl⟩
    · intro a ha
      rcases (hmem a).mp ha with h1 | ⟨m, _, rfl⟩
      · simp only [List.mem_singleton] at h1; subst h1; rfl
      · rfl

/-- Witness for C5 at a concrete CSV. -/
theorem initialize_device_prim_slot_set_witness :
    (∀ n : String,
        (Layer.mk true true
          [⟨"_ts", "double", none⟩, ⟨"A", "double", none⟩,
           ⟨"B", "double", none⟩]).hasAttr n = true ↔
          (n = "_ts" ∨ n ∈ ([⟨"B", 0, 1⟩, ⟨"A", 1000, 2⟩, ⟨"B", 1000, 3⟩] :
            List Row).map (fun r => r.Id))) ∧
    (∀ a ∈ (Layer.mk true true
        [⟨"_ts", "double", none⟩, ⟨"A", "double", none⟩,
         ⟨"B", "double", none⟩]).attrs, a.typeName = "double") :=
  initialize_device_prim_slot_set
    (Layer.mk false false [⟨"old", "int", some 5⟩])
    [⟨"B", 0, 1⟩, ⟨"A", 1000, 2⟩, ⟨"B", 1000, 3⟩]
    (Layer.mk true true
      [⟨"_ts", "double", none⟩, ⟨"A", "double", none⟩, ⟨"B", "double", none⟩])
    (by rfl)

/-- C6 (idempotent re-run): the Initializer clears every pre-existing
attribute before redeclaring, so its result does not depend on the state of
the layer it is run on — re-running it on any prior state yields the same
layer. -/
theorem initialize_device_prim_idempotent (l1 l2 : Layer) (rows : List Row) :
    initialize_device_prim l1 rows = initialize_device_prim l2 rows := by
  unfold initialize_device_prim
  rw [clearAttributes_eq_nil, clearAttributes_eq_nil]

end InitializerLemmas

/-! ### The playback driver: `write_to_live` and `run` -/

/-- `attr.default = value`: sets the default of the attribute(s) named `n`. -/
def setDefault (attrs : List AttrSpec) (n : String) (v : Rat) : List AttrSpec :=
  attrs.map (fun a => if a.name = n then { a with default := some v } else a)

/-- The current value of the attribute named `n`, if any is set. -/
def Layer.getDefault (l : Layer) (n : String) : Option Rat :=
  (l.attrs.find? (fun a => a.name = n)).bind (fun a => a.default)

/-- The outcome of one `write_to_live` call: the updated layer, the edit
units produced (each unit a list of `(slot, value)` writes that observers
see applied together), and the raised exception, if any. -/
structure WriteResult where
  layer : Layer
  units : List (List (String × Rat))
  error : Option String
deriving DecidableEq, Repr

/-- The `group.iterrows()` loop inside the `Sdf.ChangeBlock` of
`write_to_live` (app.py lines 194-200): for each row, look up the attribute
for its `Id`; raise if it is absent, otherwise set its default to the row's
`Value`.  Returns the updated layer, the writes made (in order) and the
raised exception, if any; writes made before a raising row stay applied. -/
def writeGroup (iot_topic : String) (l : Layer) :
    List Row → Layer × List (String × Rat) × Option String
  | [] => (l, [], none)
  | r :: rest =>
    if l.hasAttr r.Id then
      ((writeGroup iot_topic
          { l with attrs := setDefault l.attrs r.Id r.Value } rest).1,
       (r.Id, r.Value) ::
         (writeGroup iot_topic
           { l with attrs := setDefault l.attrs r.Id r.Value } rest).2.1,
       (writeGroup iot_topic
         { l with attrs := setDefault l.attrs r.Id r.Value } rest).2.2)
    else
      (l, [], some ("Could not find attribute /iot/" ++ iot_topic ++ "." ++
        r.Id ++ "."))

/-- `write_to_live(live_layer, iot_topic, group, ts)` (app.py lines
174-201): sets the `_ts` attribute to `ts` (outside any change block, hence
a singleton edit unit), then, inside one `Sdf.ChangeBlock` (one edit unit),
writes each row's value into its `Id`'s attribute, raising if an attribute
is missing.  If the `_ts` attribute itself is absent, `GetAttributeAtPath`
returns `None` and the assignment to `.default` raises before anything is
written. -/
def write_to_live (live_layer : Layer) (iot_topic : String) (group : List Row)
    (ts : Rat) : WriteResult :=
  if live_layer.hasAttr "_ts" then
    ⟨(writeGroup iot_topic
        { live_layer with attrs := setDefault live_layer.attrs "_ts" ts }
        group).1,
     [[("_ts", ts)],
      (writeGroup iot_topic
        { live_layer with attrs := setDefault live_layer.attrs "_ts" ts }
        group).2.1],
     (writeGroup iot_topic
        { live_layer with attrs := setDefault live_layer.attrs "_ts" ts }
        group).2.2⟩
  else
    ⟨live_layer, [], some "NoneType object has no attribute default"⟩

section WriteLemmas

/-- `setDefault` never changes attribute names. -/
theorem setDefault_map_name (attrs : List AttrSpec) (n : String) (v : Rat) :
    (setDefault attrs n v).map (fun a => a.name) = attrs.map (fun a => a.name) := by
  unfold setDefault
  rw [List.map_map]
  apply List.map_congr_left
  intro a _
  by_cases h : a.name = n <;> simp [h]

/-- Searching attributes by name only needs the name list. -/
theorem any_name_eq_map (attrs : List AttrSpec) (n : String) :
    attrs.any (fun a => a.name = n) =
      (attrs.map (fun a => a.name)).any (fun m => m = n) := by
  induction attrs with
  | nil => rfl
  | cons a rest ih => simp [ih]

/-- `Layer.hasAttr` only depends on the attribute names. -/
theorem hasAttr_eq_of_map_name {a1 a2 : List AttrSpec}
    (h : a1.map (fun a => a.name) = a2.map (fun a => a.name))
    (b1 b2 c1 c2 : Bool) (n : String) :
    (Layer.mk b1 c1 a1).hasAttr n = (Layer.mk b2 c2 a2).hasAttr n := by
  unfold Layer.hasAttr
  simp only
  rw [any_name_eq_map, any_name_eq_map, h]

/-- `setDefault` preserves `hasAttr`. -/
theorem hasAttr_setDefault (attrs : List AttrSpec) (n m : String) (v : Rat)
    (b1 b2 c1 c2 : Bool) :
    (Layer.mk b1 c1 (setDefault attrs n v)).hasAttr m =
      (Layer.mk b2 c2 attrs).hasAttr m :=
  hasAttr_eq_of_map_name (setDefault_map_name attrs n v) _ _ _ _ m

/-- `writeGroup` never changes attribute names. -/
theorem writeGroup_map_name (iot_topic : String) :
    ∀ (group : List Row) (l : Layer),
      ((writeGroup iot_topic l group).1).attrs.map (fun a => a.name) =
        l.attrs.map (fun a => a.name) := by
  intro group
  induction group with
  | nil => intro l; rfl
  | cons r rest ih =>
    intro l
    unfold writeGroup
    split
    · have := ih { l with attrs := setDefault l.attrs r.Id r.Value }
      simp only at this ⊢
      rw [this, setDefault_map_name]
    · rfl

/-- `write_to_live` never changes attribute names. -/
theorem write_to_live_map_name (l : Layer) (iot_topic : String)
    (group : List Row) (ts : Rat) :
    ((write_to_live l iot_topic group ts).layer).attrs.map (fun a => a.name) =
      l.attrs.map (fun a => a.name) := by
  unfold write_to_live
  split
  · simp only
    rw [writeGroup_map_name, setDefault_map_name]
  · rfl

/-- On a group whose every `Id` has an attribute, `writeGroup` writes each
row in order and raises nothing. -/
theorem writeGroup_ok (iot_topic : String) :
    ∀ (group : List Row) (l : Layer),
      (∀ r ∈ group, l.hasAttr r.Id = true) →
      (writeGroup iot_topic l group).2.1 =
          group.map (fun r => (r.Id, r.Value)) ∧
        (writeGroup iot_topic l group).2.2 = none := by
  intro group
  induction group with
  | nil => intro l _; exact ⟨rfl, rfl⟩
  | cons r rest ih =>
    intro l hall
    have hr : l.hasAttr r.Id = true := hall r (by simp)
    have hrest : ∀ r' ∈ rest,
        (Layer.mk l.hasIotRoot l.hasTopicPrim
          (setDefault l.attrs r.Id r.Value)).hasAttr r'.Id = true := by
      intro r' hr'
      rw [hasAttr_setDefault _ _ _ _ _ l.hasIotRoot _ l.hasTopicPrim]
      exact hall r' (by simp [hr'])
    have := ih { l with attrs := setDefault l.attrs r.Id r.Value } hrest
    unfold writeGroup
    rw [if_pos hr]
    simp only [List.map_cons]
    exact ⟨by rw [← this.1], by rw [← this.2]⟩

/-- After `setDefault n v`, the attribute named `n` (when present) reads
back `v`. -/
theorem getDefault_setDefault_self (attrs : List AttrSpec) (n : String)
    (v : Rat) (b c : Bool) (h : attrs.any (fun a => a.name = n) = true) :
    (Layer.mk b c (setDefault attrs n v)).getDefault n = some v := by
  induction attrs with
  | nil => simp at h
  | cons a rest ih =>
    by_cases ha : a.name = n
    · simp [Layer.getDefault, setDefault, List.find?, ha]
    · simp only [List.any_cons, Bool.or_eq_true, decide_eq_true_eq] at h
      rcases h with h | h
      · exact absurd h ha
      · have := ih h
        simp only [Layer.getDefault, setDefault, List.map_cons, if_neg ha,
          List.find?] at this ⊢
        rw [decide_eq_false ha]
        exact this

/-- `setDefault n v` does not change the value read at a different name. -/
theorem getDefault_setDefault_ne (attrs : List AttrSpec) (n m : String)
    (v : Rat) (b1 b2 c1 c2 : Bool) (h : m ≠ n) :
    (Layer.mk b1 c1 (setDefault attrs n v)).getDefault m =
      (Layer.mk b2 c2 attrs).getDefault m := by
  unfold Layer.getDefault setDefault
  simp only
  rw [List.find?_map]
  have hpf : ((fun a : AttrSpec => decide (a.name = m)) ∘
      (fun a => if a.name = n then { a with default := some v } else a)) =
      (fun a : AttrSpec => decide (a.name = m)) := by
    funext a
    by_cases han : a.name = n <;> simp [han]
  rw [hpf]
  cases hf : List.find? (fun a => decide (a.name = m)) attrs with
  | none => rfl
  | some a =>
    have ham : a.name = m := by
      have := List.find?_some hf
      simpa using this
    have han : ¬ a.name = n := fun hn => h (ham ▸ hn ▸ rfl)
    simp [han]

/-- `writeGroup` over rows none of which target `m` leaves the value at `m`
unchanged. -/
theorem writeGroup_getDefault_ne (iot_topic : String) (m : String) :
    ∀ (group : List Row) (l : Layer),
      (∀ r ∈ group, r.Id ≠ m) →
      ((writeGroup iot_topic l group).1).getDefault m = l.getDefault m := by
  intro group
  induction group with
  | nil => intro l _; rfl
  | cons r rest ih =>
    intro l hall
    unfold writeGroup
    split
    · have h1 := ih { l with attrs := setDefault l.attrs r.Id r.Value }
        (fun r' hr' => hall r' (by simp [hr']))
      simp only at h1 ⊢
      rw [h1]
      exact getDefault_setDefault_ne l.attrs r.Id m r.Value _ l.hasIotRoot _
        l.hasTopicPrim (fun hm => hall r (by simp) hm.symm)
    · rfl

/-- If some row of the group has no attribute for its `Id`, `writeGroup`
raises. -/
theorem writeGroup_error_of_bad (iot_topic : String) :
    ∀ (group : List Row) (l : Layer),
      (∃ r ∈ group, l.hasAttr r.Id = false) →
      ((writeGroup iot_topic l group).2.2).isSome = true := by
  intro group
  induction group with
  | nil => rintro l ⟨r, hr, _⟩; simp at hr
  | cons r rest ih =>
    rintro l ⟨b, hb, hbad⟩
    unfold writeGroup
    split
    · rename_i hr
      rcases List.mem_cons.mp hb with rfl | hb'
      · rw [hr] at hbad; cases hbad
      · refine ih _ ⟨b, hb', ?_⟩
        rw [hasAttr_setDefault _ _ _ _ _ l.hasIotRoot _ l.hasTopicPrim]
        exact hbad
    · rfl

end WriteLemmas

section ClaimC1

/-- C1 as stated is false: in `write_to_live` the timestamp-slot write
(app.py line 192) happens before the `Sdf.ChangeBlock` is opened (line
193), so the per-batch writes form two edit units, not one.  At a concrete
batch of one sample, no single edit unit contains all the batch's writes. -/
theorem write_to_live_not_single_unit :
    ¬ ∃ u : List (String × Rat),
      (write_to_live
        (Layer.mk true true
          [⟨"_ts", "double", none⟩, ⟨"A", "double", none⟩])
        "A08_PR_NVD_01" [⟨"A", 0, 7⟩] 2).units = [u] := by
  rintro ⟨u, h⟩
  have h2 : (write_to_live
      (Layer.mk true true
        [⟨"_ts", "double", none⟩, ⟨"A", "double", none⟩])
      "A08_PR_NVD_01" [⟨"A", 0, 7⟩] 2).units =
      [[("_ts", 2)], [("A", 7)]] := by rfl
  rw [h2] at h
  have := congrArg List.length h
  simp at this

/-- C1 amended: for every batch whose sample identifiers all have slots
(and with the timestamp slot present), the sample-identifier writes are
applied as one atomic edit unit — but the timestamp-slot write is a
separate, earlier edit unit of its own, so the call produces exactly the
two units `[[timestamp write], [sample writes]]` and raises nothing. -/
theorem write_to_live_units (l : Layer) (iot_topic : String)
    (group : List Row) (ts : Rat) (hts : l.hasAttr "_ts" = true)
    (hids : ∀ r ∈ group, l.hasAttr r.Id = true) :
    (write_to_live l iot_topic group ts).units =
      [[("_ts", ts)], group.map (fun r => (r.Id, r.Value))] ∧
    (write_to_live l iot_topic group ts).error = none := by
  have hids' : ∀ r ∈ group,
      ({ l with attrs := setDefault l.attrs "_ts" ts } : Layer).hasAttr r.Id
        = true := by
    intro r hr
    rw [hasAttr_setDefault _ _ _ _ _ l.hasIotRoot _ l.hasTopicPrim]
    exact hids r hr
  have hwg := writeGroup_ok iot_topic group
    { l with attrs := setDefault l.attrs "_ts" ts } hids'
  unfold write_to_live
  rw [if_pos hts]
  exact ⟨by rw [hwg.1], hwg.2⟩

/-- Witness for the amended C1 at a concrete batch. -/
theorem write_to_live_units_witness :
    (write_to_live
        (Layer.mk true true
          [⟨"_ts", "double", none⟩, ⟨"A", "double", none⟩,
           ⟨"B", "double", none⟩])
        "A08_PR_NVD_01" [⟨"A", 0, 7⟩, ⟨"B", 0, 8⟩] 2).units =
      [[("_ts", 2)],
       ([⟨"A", 0, 7⟩, ⟨"B", 0, 8⟩] : List Row).map
         (fun r => (r.Id, r.Value))] ∧
    (write_to_live
        (Layer.mk true true
          [⟨"_ts", "double", none⟩, ⟨"A", "double", none⟩,
           ⟨"B", "double", none⟩])
        "A08_PR_NVD_01" [⟨"A", 0, 7⟩, ⟨"B", 0, 8⟩] 2).error = none :=
  write_to_live_units
    (Layer.mk true true
      [⟨"_ts", "double", none⟩, ⟨"A", "double", none⟩,
       ⟨"B", "double", none⟩])
    "A08_PR_NVD_01" [⟨"A", 0, 7⟩, ⟨"B", 0, 8⟩] 2 (by rfl)
    (by intro r hr; fin_cases hr <;> rfl)

end ClaimC1

section ClaimC9

/-- C9: when a batch write fails because some sample identifier's attribute
is missing, the destination has already been modified before the exception:
the timestamp slot holds the failing batch's playback-clock value.  (The
rows are assumed not to target the reserved `_ts` slot themselves, which
the Initializer's slot layout guarantees.) -/
theorem write_to_live_error_ts_already_written (l : Layer)
    (iot_topic : String) (group : List Row) (ts : Rat)
    (hts : l.hasAttr "_ts" = true)
    (hnots : ∀ r ∈ group, r.Id ≠ "_ts")
    (hbad : ∃ r ∈ group, l.hasAttr r.Id = false) :
    ((write_to_live l iot_topic group ts).error).isSome = true ∧
    (write_to_live l iot_topic group ts).layer.getDefault "_ts" = some ts := by
  have hbad' : ∃ r ∈ group,
      ({ l with attrs := setDefault l.attrs "_ts" ts } : Layer).hasAttr r.Id
        = false := by
    obtain ⟨r, hr, hf⟩ := hbad
    refine ⟨r, hr, ?_⟩
    rw [hasAttr_setDefault _ _ _ _ _ l.hasIotRoot _ l.hasTopicPrim]
    exact hf
  unfold write_to_live
  rw [if_pos hts]
  constructor
  · exact writeGroup_error_of_bad iot_topic group _ hbad'
  · rw [writeGroup_getDefault_ne iot_topic "_ts" group _ hnots]
    exact getDefault_setDefault_self l.attrs "_ts" ts _ _ hts

/-- Witness for C9 at a concrete failing batch. -/
theorem write_to_live_error_ts_already_written_witness :
    ((write_to_live (Layer.mk true true [⟨"_ts", "double", none⟩])
        "A08_PR_NVD_01" [⟨"C", 0, 9⟩] 3).error).isSome = true ∧
    (write_to_live (Layer.mk true true [⟨"_ts", "double", none⟩])
        "A08_PR_NVD_01" [⟨"C", 0, 9⟩] 3).layer.getDefault "_ts" = some 3 :=
  write_to_live_error_ts_already_written
    (Layer.mk true true [⟨"_ts", "double", none⟩]) "A08_PR_NVD_01"
    [⟨"C", 0, 9⟩] 3 (by rfl)
    (by intro r hr; fin_cases hr; simp)
    ⟨⟨"C", 0, 9⟩, by simp, by rfl⟩

end ClaimC9

/-! ### The playback loop `run` -/

/-- An observable action of the playback loop: a `time.sleep(d)` call (in
whole seconds, the granularity after truncation) or one `write_to_live`
call, recorded with the batch's truncated timestamp, the playback-clock
value passed for the `_ts` slot, and the edit units the call produced. -/
inductive Event
  | sleep (d : Int)
  | write (t : Int) (tsVal : Rat) (units : List (List (String × Rat)))
deriving DecidableEq, Repr

/-- The outcome of a playback run: final layer, the trace of sleeps and
writes in order, and the raised exception, if any. -/
structure RunResult where
  layer : Layer
  trace : List Event
  error : Option String
deriving DecidableEq, Repr

/-- `data["TimeStamp"].dt.floor("s")` (app.py line 220): truncate a raw
millisecond timestamp down to whole seconds. -/
def truncSec (t : Int) : Int := Int.fdiv t 1000

/-- The dataframe after timestamp truncation. -/
def truncRows (rows : List Row) : List Row :=
  rows.map (fun r => { r with TimeStamp := truncSec r.TimeStamp })

/-- `data.min()["TimeStamp"]` (app.py line 223): the column minimum. -/
def listMin (l : List Int) : Int := l.foldl min (l.headD 0)

/-- The `if diff > 0: time.sleep(diff)` pacing step (app.py lines 229-231),
as the events it contributes. -/
def sleepEvents (lastT t : Int) : List Event :=
  if 0 < t - lastT then [Event.sleep (t - lastT)] else []

/-- The playback loop of `run` (app.py lines 228-233): iterate the batch
timestamps in ascending order; for each, sleep the positive difference to
the previous timestamp, then write the batch with playback-clock value
`next_time - start_time`; an exception from the write stops the loop. -/
def runLoop (iot_topic : String) (rows : List Row) (start : Int) :
    Layer → Int → List Int → RunResult
  | l, _, [] => ⟨l, [], none⟩
  | l, lastT, t :: rest =>
    match write_to_live l iot_topic
        (rows.filter (fun r => r.TimeStamp = t)) ((t - start : Int) : Rat) with
    | ⟨l2, us, some e⟩ =>
      ⟨l2, sleepEvents lastT t ++
        [Event.write t ((t - start : Int) : Rat) us], some e⟩
    | ⟨l2, us, none⟩ =>
      ⟨(runLoop iot_topic rows start l2 t rest).layer,
       sleepEvents lastT t ++
         [Event.write t ((t - start : Int) : Rat) us] ++
         (runLoop iot_topic rows start l2 t rest).trace,
       (runLoop iot_topic rows start l2 t rest).error⟩

/-- `run(stage, live_layer, iot_topic)` (app.py lines 204-233): read the
topic's CSV (`rows`), truncate timestamps to whole seconds, group by
truncated timestamp, and play the groups back in ascending order starting
from `last_time = start_time = data.min()["TimeStamp"]`. -/
def run (live_layer : Layer) (iot_topic : String) (rows : List Row) :
    RunResult :=
  runLoop iot_topic (truncRows rows)
    (listMin ((truncRows rows).map (fun r => r.TimeStamp)))
    live_layer
    (listMin ((truncRows rows).map (fun r => r.TimeStamp)))
    (sortedKeys ((truncRows rows).map (fun r => r.TimeStamp)))

/-- The truncated timestamps of the written batches, in trace order. -/
def writeKeys (tr : List Event) : List Int :=
  tr.filterMap (fun e => match e with
    | Event.write t _ _ => some t
    | _ => none)

/-- The playback-clock values passed for the `_ts` slot, in trace order. -/
def writeTsVals (tr : List Event) : List Rat :=
  tr.filterMap (fun e => match e with
    | Event.write _ v _ => some v
    | _ => none)

/-- The `(timestamp, playback-clock)` pairs of the writes, in trace order. -/
def writePairs (tr : List Event) : List (Int × Rat) :=
  tr.filterMap (fun e => match e with
    | Event.write t v _ => some (t, v)
    | _ => none)

/-- The sleep durations of the trace, in order. -/
def sleepDurations (tr : List Event) : List Int :=
  tr.filterMap (fun e => match e with
    | Event.sleep d => some d
    | _ => none)

/-- Consecutive differences of a list of timestamps. -/
def diffs : List Int → List Int
  | t0 :: t1 :: rest => (t1 - t0) :: diffs (t1 :: rest)
  | _ => []

section RunLemmas

/-- Folding `min` only decreases the accumulator. -/
theorem foldl_min_le_init : ∀ (l : List Int) (a : Int), l.foldl min a ≤ a := by
  intro l
  induction l with
  | nil => intro a; exact le_refl a
  | cons x t ih =>
    intro a
    exact le_trans (ih (min a x)) (min_le_left a x)

/-- The fold of `min` is below every list element. -/
theorem foldl_min_le_mem :
    ∀ (l : List Int) (a x : Int), x ∈ l → l.foldl min a ≤ x := by
  intro l
  induction l with
  | nil => intro a x hx; simp at hx
  | cons y t ih =>
    intro a x hx
    rcases List.mem_cons.mp hx with rfl | hx
    · exact le_trans (foldl_min_le_init t (min a x)) (min_le_right a x)
    · exact ih (min a y) x hx

/-- The fold of `min` is the accumulator or a list element. -/
theorem foldl_min_mem_or :
    ∀ (l : List Int) (a : Int), l.foldl min a = a ∨ l.foldl min a ∈ l := by
  intro l
  induction l with
  | nil => intro a; exact Or.inl rfl
  | cons y t ih =>
    intro a
    simp only [List.foldl_cons]
    rcases ih (min a y) with h | h
    · rw [h]
      rcases min_choice a y with h1 | h1
      · exact Or.inl h1
      · exact Or.inr (by rw [h1]; exact List.mem_cons_self y t)
    · exact Or.inr (List.mem_cons.mpr (Or.inr h))

/-- The column minimum is an element of a nonempty column. -/
theorem listMin_mem (l : List Int) (h : l ≠ []) : listMin l ∈ l := by
  cases l with
  | nil => exact absurd rfl h
  | cons x t =>
    unfold listMin
    simp only [List.headD_cons, List.foldl_cons, min_self]
    rcases foldl_min_mem_or t x with h1 | h1
    · rw [h1]; exact List.mem_cons_self x t
    · exact List.mem_cons.mpr (Or.inr h1)

/-- The column minimum is below every element. -/
theorem listMin_le (l : List Int) (x : Int) (hx : x ∈ l) : listMin l ≤ x :=
  foldl_min_le_mem l (l.headD 0) x hx

/-- `sortedKeys` of a nonempty list is nonempty. -/
theorem sortedKeys_ne_nil {α : Type} [LinearOrder α] (l : List α)
    (h : l ≠ []) : sortedKeys l ≠ [] := by
  obtain ⟨x, hx⟩ := List.exists_mem_of_ne_nil l h
  exact List.ne_nil_of_mem ((mem_sortedKeys l x).mpr hx)

/-- The first key that `groupby` yields is the column minimum. -/
theorem sortedKeys_head (l : List Int) (h : l ≠ []) :
    (sortedKeys l).head? = some (listMin l) := by
  cases hk : sortedKeys l with
  | nil => exact absurd hk (sortedKeys_ne_nil l h)
  | cons k0 krest =>
    have hk0mem : k0 ∈ l :=
      (mem_sortedKeys l k0).mp (by rw [hk]; exact List.mem_cons_self k0 krest)
    have hsort := sortedKeys_sorted l
    rw [hk] at hsort
    have hmin : k0 ≤ listMin l := by
      have hmem : listMin l ∈ sortedKeys l :=
        (mem_sortedKeys l (listMin l)).mpr (listMin_mem l h)
      rw [hk] at hmem
      rcases List.mem_cons.mp hmem with heq | hmem'
      · rw [heq]
      · exact (List.sorted_cons.mp hsort).1 (listMin l) hmem'
    have := le_antisymm hmin (listMin_le l k0 hk0mem)
    rw [List.head?_cons, this]

/-- Consecutive differences of a strictly increasing list are positive. -/
theorem diffs_pos :
    ∀ (l : List Int), l.Sorted (· < ·) → ∀ d ∈ diffs l, 0 < d
  | [], _, d, hd => by simp [diffs] at hd
  | [_], _, d, hd => by simp [diffs] at hd
  | t0 :: t1 :: rest, hs, d, hd => by
    rw [show diffs (t0 :: t1 :: rest) = (t1 - t0) :: diffs (t1 :: rest)
      from rfl] at hd
    rcases List.mem_cons.mp hd with rfl | hd'
    · have : t0 < t1 := (List.sorted_cons.mp hs).1 t1 (by simp)
      omega
    · exact diffs_pos (t1 :: rest) (List.sorted_cons.mp hs).2 d hd'

/-- Sleep events carry no writes. -/
theorem writePairs_sleepEvents (lastT t : Int) :
    writePairs (sleepEvents lastT t) = [] := by
  unfold sleepEvents writePairs
  split <;> rfl

/-- Sleep events carry their durations. -/
theorem sleepDurations_sleepEvents (lastT t : Int) :
    sleepDurations (sleepEvents lastT t) =
      if 0 < t - lastT then [t - lastT] else [] := by
  unfold sleepEvents sleepDurations
  split <;> rfl

/-- A write event contributes no sleeps. -/
theorem sleepDurations_write (t : Int) (v : Rat)
    (us : List (List (String × Rat))) :
    sleepDurations [Event.write t v us] = [] := rfl

/-- `writeKeys` is the first projection of `writePairs`. -/
theorem writeKeys_eq_map_fst (tr : List Event) :
    writeKeys tr = (writePairs tr).map Prod.fst := by
  induction tr with
  | nil => rfl
  | cons e rest ih =>
    cases e <;> simp [writeKeys, writePairs, List.filterMap_cons] at ih ⊢ <;>
      exact ih

/-- `writeTsVals` is the second projection of `writePairs`. -/
theorem writeTsVals_eq_map_snd (tr : List Event) :
    writeTsVals tr = (writePairs tr).map Prod.snd := by
  induction tr with
  | nil => rfl
  | cons e rest ih =>
    cases e <;> simp [writeTsVals, writePairs, List.filterMap_cons] at ih ⊢ <;>
      exact ih

end RunLemmas

section RunLoopLemmas

/-- The playback loop never changes attribute names. -/
theorem runLoop_map_name (iot_topic : String) (rows : List Row) (start : Int) :
    ∀ (keys : List Int) (l : Layer) (lastT : Int),
      ((runLoop iot_topic rows start l lastT keys).layer).attrs.map
          (fun a => a.name) =
        l.attrs.map (fun a => a.name) := by
  intro keys
  induction keys with
  | nil => intro l lastT; rfl
  | cons t rest ih =>
    intro l lastT
    unfold runLoop
    split
    · rename_i l2 us e heq
      have h1 := write_to_live_map_name l iot_topic
        (rows.filter (fun r => r.TimeStamp = t)) ((t - start : Int) : Rat)
      rw [heq] at h1
      exact h1
    · rename_i l2 us heq
      have h1 := write_to_live_map_name l iot_topic
        (rows.filter (fun r => r.TimeStamp = t)) ((t - start : Int) : Rat)
      rw [heq] at h1
      simp only
      rw [ih l2 t]
      exact h1

/-- `writePairs` distributes over append. -/
theorem writePairs_append (a b : List Event) :
    writePairs (a ++ b) = writePairs a ++ writePairs b := by
  unfold writePairs
  rw [List.filterMap_append]

/-- `sleepDurations` distributes over append. -/
theorem sleepDurations_append (a b : List Event) :
    sleepDurations (a ++ b) = sleepDurations a ++ sleepDurations b := by
  unfold sleepDurations
  rw [List.filterMap_append]

/-- `writeKeys` distributes over append. -/
theorem writeKeys_append (a b : List Event) :
    writeKeys (a ++ b) = writeKeys a ++ writeKeys b := by
  unfold writeKeys
  rw [List.filterMap_append]

/-- Sleep events carry no write keys. -/
theorem writeKeys_sleepEvents (lastT t : Int) :
    writeKeys (sleepEvents lastT t) = [] := by
  unfold sleepEvents writeKeys
  split <;> rfl

/-- Structure of the write events of one playback run: they cover an
initial segment of the batch keys, in order, and each write's
playback-clock value is its key minus the start time. -/
theorem runLoop_writePairs (iot_topic : String) (rows : List Row)
    (start : Int) :
    ∀ (keys : List Int) (l : Layer) (lastT : Int),
      ∃ ks : List Int,
        (∃ suf, keys = ks ++ suf) ∧
        (∀ k kr, keys = k :: kr → ks.head? = some k) ∧
        writePairs (runLoop iot_topic rows start l lastT keys).trace =
          ks.map (fun t => (t, ((t - start : Int) : Rat))) := by
  intro keys
  induction keys with
  | nil =>
    intro l lastT
    refine ⟨[], ⟨[], rfl⟩, ?_, rfl⟩
    intro k kr hk
    cases hk
  | cons t rest ih =>
    intro l lastT
    unfold runLoop
    split
    · refine ⟨[t], ⟨rest, rfl⟩, ?_, ?_⟩
      · intro k kr hk
        cases hk
        rfl
      · simp only [writePairs_append, writePairs_sleepEvents]
        rfl
    · rename_i l2 us heq
      obtain ⟨ks2, ⟨suf, hsuf⟩, _, hpairs⟩ := ih l2 t
      refine ⟨t :: ks2, ⟨suf, by rw [List.cons_append, ← hsuf]⟩, ?_, ?_⟩
      · intro k kr hk
        cases hk
        rfl
      · simp only [writePairs_append, writePairs_sleepEvents, hpairs]
        rfl

/-- Structure of the sleep events of one playback run: they are exactly the
positive consecutive differences of `lastT` followed by the written batch
keys. -/
theorem runLoop_sleeps (iot_topic : String) (rows : List Row) (start : Int) :
    ∀ (keys : List Int) (l : Layer) (lastT : Int),
      sleepDurations (runLoop iot_topic rows start l lastT keys).trace =
        (diffs (lastT ::
          writeKeys (runLoop iot_topic rows start l lastT keys).trace)).filter
          (fun d => 0 < d) := by
  intro keys
  induction keys with
  | nil => intro l lastT; rfl
  | cons t rest ih =>
    intro l lastT
    unfold runLoop
    split
    · rename_i l2 us e heq
      simp only [sleepDurations_append, sleepDurations_sleepEvents,
        sleepDurations_write, writeKeys_append, writeKeys_sleepEvents]
      rw [show writeKeys [Event.write t ((t - start : Int) : Rat) us] = [t]
        from rfl]
      simp only [List.nil_append]
      rw [show diffs (lastT :: [t]) = [t - lastT] from rfl]
      by_cases hd : 0 < t - lastT
      · simp [hd]
      · simp [hd]
    · rename_i l2 us heq
      simp only [sleepDurations_append, sleepDurations_sleepEvents,
        sleepDurations_write, writeKeys_append, writeKeys_sleepEvents,
        ih l2 t]
      rw [show writeKeys [Event.write t ((t - start : Int) : Rat) us] = [t]
        from rfl]
      simp only [List.nil_append, List.singleton_append]
      rw [show diffs (lastT :: t ::
        writeKeys (runLoop iot_topic rows start l2 t rest).trace) =
        (t - lastT) :: diffs (t ::
          writeKeys (runLoop iot_topic rows start l2 t rest).trace) from rfl]
      rw [List.filter_cons]
      by_cases hd : 0 < t - lastT
      · simp [hd]
      · simp [hd]

end RunLoopLemmas



section RunLoopMore

/-- `Layer.hasAttr` agrees on layers with the same attribute names. -/
theorem hasAttr_congr {l1 l2 : Layer}
    (h : l1.attrs.map (fun a => a.name) = l2.attrs.map (fun a => a.name))
    (n : String) : l1.hasAttr n = l2.hasAttr n := by
  unfold Layer.hasAttr
  rw [any_name_eq_map, any_name_eq_map, h]

/-- Every sleep the playback loop performs has a positive duration: the
`if diff > 0` guard protects every `time.sleep` call. -/
theorem runLoop_sleep_pos (iot_topic : String) (rows : List Row)
    (start : Int) :
    ∀ (keys : List Int) (l : Layer) (lastT : Int) (d : Int),
      Event.sleep d ∈ (runLoop iot_topic rows start l lastT keys).trace →
      0 < d := by
  intro keys
  induction keys with
  | nil => intro l lastT d hd; simp [runLoop] at hd
  | cons t rest ih =>
    intro l lastT d hd
    have hsleep : ∀ us, Event.sleep d ∈
        (sleepEvents lastT t ++
          [Event.write t ((t - start : Int) : Rat) us]) → 0 < d := by
      intro us h
      rcases List.mem_append.mp h with h1 | h1
      · unfold sleepEvents at h1
        split at h1
        · rename_i hpos
          rcases List.mem_singleton.mp h1 with h2
          cases h2
          exact hpos
        · simp at h1
      · rcases List.mem_singleton.mp h1 with h2
        cases h2
    unfold runLoop at hd
    split at hd
    · rename_i l2 us e heq
      exact hsleep us hd
    · rename_i l2 us heq
      rcases List.mem_append.mp hd with h | h
      · exact hsleep us h
      · exact ih l2 t d h

/-- When the first batch key equals `last_time` (as at loop entry, where
both are the column minimum), the first trace event is the write of that
batch: no sleep precedes it. -/
theorem runLoop_first_event_write (iot_topic : String) (rows : List Row)
    (start : Int) (rest : List Int) (l : Layer) (lastT : Int) :
    ∃ v us,
      ((runLoop iot_topic rows start l lastT (lastT :: rest)).trace).head? =
        some (Event.write lastT v us) := by
  have hnil : sleepEvents lastT lastT = [] := by
    unfold sleepEvents
    simp
  unfold runLoop
  split
  · rename_i l2 us e heq
    exact ⟨((lastT - start : Int) : Rat), us, by rw [hnil]; rfl⟩
  · rename_i l2 us heq
    exact ⟨((lastT - start : Int) : Rat), us, by rw [hnil]; rfl⟩

/-- A sleep (if any) directly precedes its batch's write event. -/
theorem chain_sleep_write (lastT t : Int) (v : Rat)
    (us : List (List (String × Rat))) :
    List.Chain'
      (fun a b => ∀ d, a = Event.sleep d → ∃ t' v' us', b = Event.write t' v' us')
      (sleepEvents lastT t ++ [Event.write t v us]) := by
  unfold sleepEvents
  split
  · refine List.chain'_cons.mpr ⟨?_, List.chain'_singleton _⟩
    intro d _
    exact ⟨t, v, us, rfl⟩
  · simp

/-- In the playback trace, every sleep is immediately followed by a write:
the delay is imposed directly before writing the batch. -/
theorem runLoop_sleep_then_write (iot_topic : String) (rows : List Row)
    (start : Int) :
    ∀ (keys : List Int) (l : Layer) (lastT : Int),
      List.Chain'
        (fun a b => ∀ d, a = Event.sleep d → ∃ t' v' us', b = Event.write t' v' us')
        (runLoop iot_topic rows start l lastT keys).trace := by
  intro keys
  induction keys with
  | nil => intro l lastT; simp [runLoop]
  | cons t rest ih =>
    intro l lastT
    unfold runLoop
    split
    · rename_i l2 us e heq
      exact chain_sleep_write lastT t _ us
    · rename_i l2 us heq
      rw [List.chain'_append]
      refine ⟨chain_sleep_write lastT t _ us, ih l2 t, ?_⟩
      intro x hx y _ d hxd
      rw [List.getLast?_concat] at hx
      have hxw : x = Event.write t ((t - start : Int) : Rat) us := by
        have := hx
        simp only [Option.mem_def, Option.some.injEq] at this
        exact this.symm
      rw [hxw] at hxd
      cases hxd

end RunLoopMore

section RunLoopUnits

/-- Every write event of the playback trace opens with the singleton
timestamp-slot edit unit carrying the event's playback-clock value
(provided the timestamp slot exists, as the Initializer guarantees). -/
theorem runLoop_write_units (iot_topic : String) (rows : List Row)
    (start : Int) :
    ∀ (keys : List Int) (l : Layer) (lastT : Int),
      l.hasAttr "_ts" = true →
      ∀ t v us,
        Event.write t v us ∈ (runLoop iot_topic rows start l lastT keys).trace →
        us.head? = some [("_ts", v)] := by
  intro keys
  induction keys with
  | nil => intro l lastT _ t v us h; simp [runLoop] at h
  | cons tk rest ih =>
    intro l lastT hts t v us h
    have hsleepmem : ∀ t' v' us',
        Event.write t' v' us' ∈ sleepEvents lastT tk → False := by
      intro t' v' us' h'
      unfold sleepEvents at h'
      split at h'
      · rcases List.mem_singleton.mp h' with h2
        cases h2
      · simp at h'
    unfold runLoop at h
    split at h
    · rename_i l2 us2 e heq
      have hus : us2.head? = some [("_ts", ((tk - start : Int) : Rat))] := by
        unfold write_to_live at heq
        rw [if_pos hts] at heq
        have h2 : _ = us2 := congrArg WriteResult.units heq
        rw [← h2]
        rfl
      rcases List.mem_append.mp h with h1 | h1
      · exact absurd h1 (fun hh => hsleepmem t v us hh)
      · rcases List.mem_singleton.mp h1 with h2
        cases h2
        exact hus
    · rename_i l2 us2 heq
      have hlay : (write_to_live l iot_topic
          (rows.filter (fun r => r.TimeStamp = tk))
          ((tk - start : Int) : Rat)).layer = l2 := by
        rw [heq]
      have hts2 : l2.hasAttr "_ts" = true := by
        rw [← hlay]
        rw [hasAttr_congr (write_to_live_map_name l iot_topic
          (rows.filter (fun r => r.TimeStamp = tk)) ((tk - start : Int) : Rat))]
        exact hts
      have hus : us2.head? = some [("_ts", ((tk - start : Int) : Rat))] := by
        unfold write_to_live at heq
        rw [if_pos hts] at heq
        have h2 : _ = us2 := congrArg WriteResult.units heq
        rw [← h2]
        rfl
      rcases List.mem_append.mp h with h1 | h1
      · rcases List.mem_append.mp h1 with h2 | h2
        · exact absurd h2 (fun hh => hsleepmem t v us hh)
        · rcases List.mem_singleton.mp h2 with h3
          cases h3
          exact hus
      · exact ih l2 tk hts2 t v us h1

end RunLoopUnits

section RunLoopStop

/-- `write_to_live` raises whenever some row of the group has no attribute
for its identifier (whether or not the timestamp slot exists). -/
theorem write_to_live_error_of_bad (l : Layer) (iot_topic : String)
    (group : List Row) (ts : Rat)
    (hbad : ∃ r ∈ group, l.hasAttr r.Id = false) :
    ((write_to_live l iot_topic group ts).error).isSome = true := by
  unfold write_to_live
  split
  · apply writeGroup_error_of_bad
    obtain ⟨r, hr, hf⟩ := hbad
    refine ⟨r, hr, ?_⟩
    rw [hasAttr_setDefault _ _ _ _ _ l.hasIotRoot _ l.hasTopicPrim]
    exact hf
  · rfl

/-- If some batch key `tb` has a row whose identifier has no slot, the loop
raises, and only batches with keys at most `tb` are ever written. -/
theorem runLoop_stops_at_bad (iot_topic : String) (rows : List Row)
    (start : Int) (tb : Int) :
    ∀ (keys : List Int) (l : Layer) (lastT : Int),
      keys.Sorted (· < ·) → tb ∈ keys →
      (∃ r ∈ rows, r.TimeStamp = tb ∧ l.hasAttr r.Id = false) →
      ((runLoop iot_topic rows start l lastT keys).error).isSome = true ∧
      ∀ t ∈ writeKeys (runLoop iot_topic rows start l lastT keys).trace,
        t ≤ tb := by
  intro keys
  induction keys with
  | nil => intro l lastT _ htb _; simp at htb
  | cons k rest ih =>
    intro l lastT hsort htb hbad
    have hk_le : k ≤ tb := by
      rcases List.mem_cons.mp htb with rfl | h
      · exact le_refl tb
      · exact le_of_lt ((List.sorted_cons.mp hsort).1 tb h)
    unfold runLoop
    split
    · rename_i l2 us e heq
      refine ⟨rfl, ?_⟩
      intro t ht
      rw [writeKeys_append, writeKeys_sleepEvents, List.nil_append] at ht
      rcases List.mem_singleton.mp ht with rfl
      exact hk_le
    · rename_i l2 us heq
      have herrnone : ((write_to_live l iot_topic
          (rows.filter (fun r => r.TimeStamp = k))
          ((k - start : Int) : Rat)).error) = none := by
        rw [heq]
      have hkne : k ≠ tb := by
        intro hkeq
        obtain ⟨r, hr, hrt, hrbad⟩ := hbad
        have hmem : r ∈ rows.filter (fun r => r.TimeStamp = k) := by
          rw [List.mem_filter]
          exact ⟨hr, by simp [hrt, hkeq]⟩
        have := write_to_live_error_of_bad l iot_topic
          (rows.filter (fun r => r.TimeStamp = k)) ((k - start : Int) : Rat)
          ⟨r, hmem, hrbad⟩
        rw [herrnone] at this
        cases this
      have htb2 : tb ∈ rest := by
        rcases List.mem_cons.mp htb with rfl | h
        · exact absurd rfl hkne
        · exact h
      have hlay : (write_to_live l iot_topic
          (rows.filter (fun r => r.TimeStamp = k))
          ((k - start : Int) : Rat)).layer = l2 := by
        rw [heq]
      have hbad2 : ∃ r ∈ rows, r.TimeStamp = tb ∧ l2.hasAttr r.Id = false := by
        obtain ⟨r, hr, hrt, hrbad⟩ := hbad
        refine ⟨r, hr, hrt, ?_⟩
        rw [← hlay]
        rw [hasAttr_congr (write_to_live_map_name l iot_topic
          (rows.filter (fun r => r.TimeStamp = k)) ((k - start : Int) : Rat))]
        exact hrbad
      obtain ⟨iherr, ihbound⟩ := ih l2 k (List.sorted_cons.mp hsort).2 htb2 hbad2
      refine ⟨iherr, ?_⟩
      intro t ht
      rw [writeKeys_append, writeKeys_append, writeKeys_sleepEvents,
        List.nil_append] at ht
      rcases List.mem_append.mp ht with h1 | h1
      · rcases List.mem_singleton.mp h1 with rfl
        exact hk_le
      · exact ihbound t h1

end RunLoopStop

section ClaimC2

/-- C2: if any input row's identifier has no attribute slot on the topic's
node, playback fails fatally: the run raises, only batches up to (and
including) that row's batch are ever written — none after it — and the
missing identifier never gains a slot (the sample is not substituted). -/
theorem run_stops_on_missing_slot (live_layer : Layer) (iot_topic : String)
    (rows : List Row) (b : Row) (hb : b ∈ rows)
    (hbad : live_layer.hasAttr b.Id = false) :
    ((run live_layer iot_topic rows).error).isSome = true ∧
    (∀ t ∈ writeKeys (run live_layer iot_topic rows).trace,
      t ≤ truncSec b.TimeStamp) ∧
    ((run live_layer iot_topic rows).layer).hasAttr b.Id = false := by
  unfold run
  have htbmem : truncSec b.TimeStamp ∈
      (truncRows rows).map (fun r => r.TimeStamp) := by
    unfold truncRows
    rw [List.map_map]
    exact List.mem_map.mpr ⟨b, hb, rfl⟩
  have hkeys : truncSec b.TimeStamp ∈
      sortedKeys ((truncRows rows).map (fun r => r.TimeStamp)) :=
    (mem_sortedKeys _ _).mpr htbmem
  have hbadrow : ∃ r ∈ truncRows rows,
      r.TimeStamp = truncSec b.TimeStamp ∧
        live_layer.hasAttr r.Id = false := by
    refine ⟨{ b with TimeStamp := truncSec b.TimeStamp }, ?_, rfl, hbad⟩
    exact List.mem_map.mpr ⟨b, hb, rfl⟩
  obtain ⟨herr, hbound⟩ := runLoop_stops_at_bad iot_topic (truncRows rows)
    (listMin ((truncRows rows).map (fun r => r.TimeStamp)))
    (truncSec b.TimeStamp)
    (sortedKeys ((truncRows rows).map (fun r => r.TimeStamp)))
    live_layer
    (listMin ((truncRows rows).map (fun r => r.TimeStamp)))
    (sortedKeys_sorted_lt _) hkeys hbadrow
  refine ⟨herr, hbound, ?_⟩
  rw [hasAttr_congr (runLoop_map_name iot_topic (truncRows rows)
    (listMin ((truncRows rows).map (fun r => r.TimeStamp)))
    (sortedKeys ((truncRows rows).map (fun r => r.TimeStamp)))
    live_layer
    (listMin ((truncRows rows).map (fun r => r.TimeStamp))))]
  exact hbad

/-- Witness for C2: a CSV whose second-batch row `C` has no slot. -/
theorem run_stops_on_missing_slot_witness :
    ((run (Layer.mk true true
        [⟨"_ts", "double", none⟩, ⟨"A", "double", none⟩]) "A08_PR_NVD_01"
        [⟨"A", 0, 1⟩, ⟨"C", 1500, 2⟩]).error).isSome = true ∧
    (∀ t ∈ writeKeys (run (Layer.mk true true
        [⟨"_ts", "double", none⟩, ⟨"A", "double", none⟩]) "A08_PR_NVD_01"
        [⟨"A", 0, 1⟩, ⟨"C", 1500, 2⟩]).trace,
      t ≤ truncSec (⟨"C", 1500, 2⟩ : Row).TimeStamp) ∧
    ((run (Layer.mk true true
        [⟨"_ts", "double", none⟩, ⟨"A", "double", none⟩]) "A08_PR_NVD_01"
        [⟨"A", 0, 1⟩, ⟨"C", 1500, 2⟩]).layer).hasAttr
        (⟨"C", 1500, 2⟩ : Row).Id = false :=
  run_stops_on_missing_slot
    (Layer.mk true true [⟨"_ts", "double", none⟩, ⟨"A", "double", none⟩])
    "A08_PR_NVD_01" [⟨"A", 0, 1⟩, ⟨"C", 1500, 2⟩] ⟨"C", 1500, 2⟩
    (by simp) (by rfl)

end ClaimC2

section ClaimC3

/-- C3: every batch write passes the playback-clock value
`batch_time - first_batch_time` (in whole seconds, over the truncated
timestamps, with `first_batch_time` the column minimum) for the timestamp
slot; across successive batches these values are monotonically
non-decreasing, and the first batch's value is `0`. -/
theorem run_timestamp_slot_values (live_layer : Layer) (iot_topic : String)
    (rows : List Row) (hne : rows ≠ []) :
    writePairs (run live_layer iot_topic rows).trace =
      (writeKeys (run live_layer iot_topic rows).trace).map
        (fun t => (t,
          ((t - listMin ((truncRows rows).map (fun r => r.TimeStamp)) :
            Int) : Rat))) ∧
    List.Chain' (· ≤ ·) (writeTsVals (run live_layer iot_topic rows).trace) ∧
    (writeTsVals (run live_layer iot_topic rows).trace).head? = some 0 := by
  unfold run
  obtain ⟨ks, ⟨suf, hsuf⟩, hhead, hpairs⟩ := runLoop_writePairs iot_topic
    (truncRows rows) (listMin ((truncRows rows).map (fun r => r.TimeStamp)))
    (sortedKeys ((truncRows rows).map (fun r => r.TimeStamp)))
    live_layer (listMin ((truncRows rows).map (fun r => r.TimeStamp)))
  have hwk : writeKeys (runLoop iot_topic (truncRows rows)
      (listMin ((truncRows rows).map (fun r => r.TimeStamp))) live_layer
      (listMin ((truncRows rows).map (fun r => r.TimeStamp)))
      (sortedKeys ((truncRows rows).map (fun r => r.TimeStamp)))).trace =
      ks := by
    rw [writeKeys_eq_map_fst, hpairs, List.map_map]
    show List.map (fun t => t) ks = ks
    simp
  have hvals : writeTsVals (runLoop iot_topic (truncRows rows)
      (listMin ((truncRows rows).map (fun r => r.TimeStamp))) live_layer
      (listMin ((truncRows rows).map (fun r => r.TimeStamp)))
      (sortedKeys ((truncRows rows).map (fun r => r.TimeStamp)))).trace =
      ks.map (fun t =>
        ((t - listMin ((truncRows rows).map (fun r => r.TimeStamp)) :
          Int) : Rat)) := by
    rw [writeTsVals_eq_map_snd, hpairs, List.map_map]
    rfl
  have hpw : (sortedKeys ((truncRows rows).map
      (fun r => r.TimeStamp))).Pairwise (· < ·) := sortedKeys_sorted_lt _
  have hkspw : ks.Pairwise (· < ·) := by
    rw [hsuf] at hpw
    exact (List.pairwise_append.mp hpw).1
  have htss : (truncRows rows).map (fun r => r.TimeStamp) ≠ [] := by
    unfold truncRows
    intro hcon
    rw [List.map_map, List.map_eq_nil_iff] at hcon
    exact hne hcon
  refine ⟨?_, ?_, ?_⟩
  · rw [hpairs, hwk]
  · rw [hvals]
    rw [List.chain'_map]
    refine List.Chain'.imp ?_ hkspw.chain'
    intro a b hab
    exact Int.cast_le.mpr (by omega)
  · rw [hvals, List.head?_map]
    have hkshead : ks.head? =
        some (listMin ((truncRows rows).map (fun r => r.TimeStamp))) := by
      cases hk : sortedKeys ((truncRows rows).map (fun r => r.TimeStamp)) with
      | nil => exact absurd hk (sortedKeys_ne_nil _ htss)
      | cons k0 kr =>
        have h1 := sortedKeys_head _ htss
        rw [hk] at h1
        have h3 : k0 =
            listMin ((truncRows rows).map (fun r => r.TimeStamp)) := by
          simpa using h1
        rw [hhead k0 kr hk, h3]
    rw [hkshead]
    simp

/-- Witness for C3 at a concrete CSV. -/
theorem run_timestamp_slot_values_witness :
    writePairs (run (Layer.mk true true
        [⟨"_ts", "double", none⟩, ⟨"A", "double", none⟩]) "A08_PR_NVD_01"
        [⟨"A", 0, 1⟩, ⟨"A", 2500, 2⟩]).trace =
      (writeKeys (run (Layer.mk true true
        [⟨"_ts", "double", none⟩, ⟨"A", "double", none⟩]) "A08_PR_NVD_01"
        [⟨"A", 0, 1⟩, ⟨"A", 2500, 2⟩]).trace).map
        (fun t => (t,
          ((t - listMin ((truncRows [⟨"A", 0, 1⟩, ⟨"A", 2500, 2⟩]).map
            (fun r => r.TimeStamp)) : Int) : Rat))) ∧
    List.Chain' (· ≤ ·) (writeTsVals (run (Layer.mk true true
        [⟨"_ts", "double", none⟩, ⟨"A", "double", none⟩]) "A08_PR_NVD_01"
        [⟨"A", 0, 1⟩, ⟨"A", 2500, 2⟩]).trace) ∧
    (writeTsVals (run (Layer.mk true true
        [⟨"_ts", "double", none⟩, ⟨"A", "double", none⟩]) "A08_PR_NVD_01"
        [⟨"A", 0, 1⟩, ⟨"A", 2500, 2⟩]).trace).head? = some 0 :=
  run_timestamp_slot_values
    (Layer.mk true true [⟨"_ts", "double", none⟩, ⟨"A", "double", none⟩])
    "A08_PR_NVD_01" [⟨"A", 0, 1⟩, ⟨"A", 2500, 2⟩] (by simp)

end ClaimC3

section ClaimC4

/-- C4: pacing of the playback loop.  Every `time.sleep` is called with a
strictly positive duration; when the CSV is nonempty the first trace event
is the write of the earliest batch, with no preceding delay; the sleep
durations are exactly the consecutive differences of the written batch
timestamps (one delay of `current - previous` seconds between successive
batches); and every sleep is immediately followed by its batch's write. -/
theorem run_pacing (live_layer : Layer) (iot_topic : String)
    (rows : List Row) (hne : rows ≠ []) :
    (∀ d, Event.sleep d ∈ (run live_layer iot_topic rows).trace → 0 < d) ∧
    (∃ v us, ((run live_layer iot_topic rows).trace).head? =
      some (Event.write
        (listMin ((truncRows rows).map (fun r => r.TimeStamp))) v us)) ∧
    sleepDurations (run live_layer iot_topic rows).trace =
      diffs (writeKeys (run live_layer iot_topic rows).trace) ∧
    List.Chain'
      (fun a b => ∀ d, a = Event.sleep d → ∃ t' v' us', b = Event.write t' v' us')
      (run live_layer iot_topic rows).trace := by
  unfold run
  set rows2 := truncRows rows with hrows2
  set tss := rows2.map (fun r => r.TimeStamp) with htssdef
  set start := listMin tss with hstartdef
  set keys := sortedKeys tss with hkeysdef
  have htss : tss ≠ [] := by
    rw [htssdef, hrows2]
    unfold truncRows
    intro hcon
    rw [List.map_map, List.map_eq_nil_iff] at hcon
    exact hne hcon
  obtain ⟨ks, ⟨suf, hsuf⟩, hhead, hpairs⟩ :=
    runLoop_writePairs iot_topic rows2 start keys live_layer start
  have hwk : writeKeys (runLoop iot_topic rows2 start live_layer start
      keys).trace = ks := by
    rw [writeKeys_eq_map_fst, hpairs, List.map_map]
    show List.map (fun t => t) ks = ks
    simp
  have hpw : keys.Pairwise (· < ·) := by
    rw [hkeysdef]
    exact sortedKeys_sorted_lt _
  have hkspw : ks.Pairwise (· < ·) := by
    rw [hsuf] at hpw
    exact (List.pairwise_append.mp hpw).1
  have hkh : keys.head? = some start := by
    rw [hkeysdef, hstartdef]
    exact sortedKeys_head _ htss
  have hkshead : ks.head? = some start := by
    cases hk : keys with
    | nil => rw [hk] at hkh; cases hkh
    | cons k0 kr =>
      rw [hk] at hkh
      have h3 : k0 = start := by simpa using hkh
      rw [hhead k0 kr hk, h3]
  refine ⟨?_, ?_, ?_, ?_⟩
  · exact runLoop_sleep_pos iot_topic rows2 start keys live_layer start
  · cases hk : keys with
    | nil => rw [hk] at hkh; cases hkh
    | cons k0 kr =>
      rw [hk] at hkh
      have h3 : k0 = start := by simpa using hkh
      rw [h3]
      exact runLoop_first_event_write iot_topic rows2 start kr
        live_layer start
  · rw [runLoop_sleeps, hwk]
    cases hks : ks with
    | nil => rfl
    | cons k0 ks2 =>
      have hk0 : k0 = start := by
        rw [hks] at hkshead
        simpa using hkshead
      rw [show diffs (start :: k0 :: ks2) =
        (k0 - start) :: diffs (k0 :: ks2) from rfl]
      rw [List.filter_cons]
      rw [if_neg (by rw [hk0]; simp : ¬ (decide (0 < k0 - start) = true))]
      have hpos : ∀ d ∈ diffs (k0 :: ks2), decide (0 < d) = true := by
        intro d hd
        rw [hks] at hkspw
        exact decide_eq_true (diffs_pos (k0 :: ks2) hkspw d hd)
      exact List.filter_eq_self.mpr hpos
  · exact runLoop_sleep_then_write iot_topic rows2 start keys
      live_layer start

/-- Witness for C4 at a concrete CSV. -/
theorem run_pacing_witness :
    (∀ d, Event.sleep d ∈ (run (Layer.mk true true
        [⟨"_ts", "double", none⟩, ⟨"A", "double", none⟩]) "A08_PR_NVD_01"
        [⟨"A", 1000, 1⟩, ⟨"A", 3000, 2⟩]).trace → 0 < d) ∧
    (∃ v us, ((run (Layer.mk true true
        [⟨"_ts", "double", none⟩, ⟨"A", "double", none⟩]) "A08_PR_NVD_01"
        [⟨"A", 1000, 1⟩, ⟨"A", 3000, 2⟩]).trace).head? =
      some (Event.write
        (listMin ((truncRows [⟨"A", 1000, 1⟩, ⟨"A", 3000, 2⟩]).map
          (fun r => r.TimeStamp))) v us)) ∧
    sleepDurations (run (Layer.mk true true
        [⟨"_ts", "double", none⟩, ⟨"A", "double", none⟩]) "A08_PR_NVD_01"
        [⟨"A", 1000, 1⟩, ⟨"A", 3000, 2⟩]).trace =
      diffs (writeKeys (run (Layer.mk true true
        [⟨"_ts", "double", none⟩, ⟨"A", "double", none⟩]) "A08_PR_NVD_01"
        [⟨"A", 1000, 1⟩, ⟨"A", 3000, 2⟩]).trace) ∧
    List.Chain'
      (fun a b => ∀ d, a = Event.sleep d → ∃ t' v' us', b = Event.write t' v' us')
      (run (Layer.mk true true
        [⟨"_ts", "double", none⟩, ⟨"A", "double", none⟩]) "A08_PR_NVD_01"
        [⟨"A", 1000, 1⟩, ⟨"A", 3000, 2⟩]).trace :=
  run_pacing
    (Layer.mk true true [⟨"_ts", "double", none⟩, ⟨"A", "double", none⟩])
    "A08_PR_NVD_01" [⟨"A", 1000, 1⟩, ⟨"A", 3000, 2⟩] (by simp)

end ClaimC4

/-! ### Setup: `check_connection`, `create_live_layer`, `initialize_async` -/

/-- The outcomes of the external asset-service calls made during setup;
`initialize_async` is deterministic in them. -/
structure Env where
  statOk : Bool
  copyOk : Bool
  stageOpens : Bool
  rootSubLayerPaths : List String
  liveLayerFound : Bool
  liveCreateOk : Bool
  foundLiveLayer : Layer
deriving DecidableEq, Repr

/-- The observable outcome of a successful `initialize_async`: which
failure messages were printed, the root layer's resulting sublayer paths,
whether the root layer was saved, and the initialized live layer. -/
structure InitResult where
  connFailLogged : Bool
  copyFailLogged : Bool
  rootSubLayerPaths : List String
  rootSaved : Bool
  liveLayer : Layer
deriving DecidableEq, Repr

/-- `check_connection()` (app.py lines 235-243): stat the host URL and
print the outcome; on failure the `exit(1)` is commented out, so the
failure is only reported.  Returns whether the failure message was
printed; never raises and never exits. -/
def check_connection (statOk : Bool) : Bool := !statOk

/-- `create_live_layer(iot_topic)` (app.py lines 88-106): create a fresh
live layer holding only the `/iot` root prim, raising when creation
fails. -/
def create_live_layer (createOk : Bool) : Except String Layer :=
  if createOk then .ok ⟨true, false, []⟩
  else .error "Could load the live layer."

/-- The live layer's identifier `{BASE_URL}/{iot_topic}.live`. -/
def live_url (base iot_topic : String) : String :=
  base ++ "/" ++ iot_topic ++ ".live"

/-- The sublayer-registration step (app.py lines 157-165): scan
`root_layer.subLayerPaths` for the live layer's identifier and append it
only when no existing entry equals it. -/
def registerSublayer (paths : List String) (ident : String) : List String :=
  if paths.any (fun p => p = ident) then paths else paths ++ [ident]

/-- `initialize_async(iot_topic)` (app.py lines 109-171): check
connectivity (failure only reported), copy the stage with overwrite
(failure only logged), open the stage (fatal on failure), find the live
layer or create it (fatal on failure), register it as a sublayer of the
root layer unless an equal path is present — saving the root layer only in
that case — and initialize the device prim from the topic's CSV (`rows`). -/
def initialize_async (env : Env) (base iot_topic : String)
    (rows : List Row) : Except String InitResult :=
  if env.stageOpens = false then
    .error ("Could load the stage " ++ base ++ "/ConveyorBelt_" ++
      iot_topic ++ ".usd.")
  else
    match (if env.liveLayerFound then Except.ok env.foundLiveLayer
        else create_live_layer env.liveCreateOk) with
    | .error e => .error e
    | .ok live =>
      match initialize_device_prim live rows with
      | .error e => .error e
      | .ok live2 =>
        .ok ⟨check_connection env.statOk, !env.copyOk,
          registerSublayer env.rootSubLayerPaths (live_url base iot_topic),
          !(env.rootSubLayerPaths.any
            (fun p => p = live_url base iot_topic)),
          live2⟩

section ClaimC7

/-- C7: a connectivity-check failure during setup is reported but
non-fatal: whatever the stat result, `initialize_async` succeeds or fails
identically (it proceeds to copy, open and initialize, with no retry and no
exit); the only difference is the logged failure message. -/
theorem check_connection_failure_nonfatal (env : Env)
    (base iot_topic : String) (rows : List Row) (b : Bool) :
    initialize_async { env with statOk := b } base iot_topic rows =
      (initialize_async { env with statOk := true } base iot_topic
        rows).map (fun r => { r with connFailLogged := !b }) := by
  unfold initialize_async
  by_cases henv : env.stageOpens = false
  · simp [henv, Except.map]
  · simp only [if_neg henv]
    split
    · simp [Except.map]
    · rename_i live heq
      cases hdp : initialize_device_prim live rows with
      | error e => simp [hdp, Except.map]
      | ok live2 => simp [hdp, Except.map, check_connection]

end ClaimC7

section ClaimC8

/-- C8: a failure of the copy step that stages the base document is only
logged and not fatal: whatever the copy result, `initialize_async`
continues identically (attempting to open the possibly-missing document);
the only difference is the logged copy-failure message. -/
theorem copy_failure_nonfatal (env : Env) (base iot_topic : String)
    (rows : List Row) (b : Bool) :
    initialize_async { env with copyOk := b } base iot_topic rows =
      (initialize_async { env with copyOk := true } base iot_topic
        rows).map (fun r => { r with copyFailLogged := !b }) := by
  unfold initialize_async
  by_cases henv : env.stageOpens = false
  · simp [henv, Except.map]
  · simp only [if_neg henv]
    split
    · simp [Except.map]
    · rename_i live heq
      cases hdp : initialize_device_prim live rows with
      | error e => simp [hdp, Except.map]
      | ok live2 => simp [hdp, Except.map]

end ClaimC8

section ClaimC10

/-- One registration keeps the live-layer entry unique. -/
theorem registerSublayer_count (p : List String) (ident : String)
    (h : p.count ident ≤ 1) :
    (registerSublayer p ident).count ident ≤ 1 := by
  unfold registerSublayer
  split
  · exact h
  · rename_i hany
    have hmem : ident ∉ p := by
      intro hm
      exact hany (List.any_eq_true.mpr ⟨ident, hm, by simp⟩)
    rw [List.count_append, List.count_eq_zero.mpr hmem]
    simp

/-- C10: the live layer is registered as a sublayer only when no existing
sublayer path equals its identifier, and the root layer is saved only in
that case; consequently, starting from a root layer holding at most one
entry for the live layer, any number of repeated initializations leaves at
most one entry (no duplicates). -/
theorem initialize_async_sublayer_unique (env : Env)
    (base iot_topic : String) (rows : List Row) (r : InitResult)
    (h : initialize_async env base iot_topic rows = .ok r) (n : Nat)
    (hcount : env.rootSubLayerPaths.count (live_url base iot_topic) ≤ 1) :
    (r.rootSaved = true ↔
      live_url base iot_topic ∉ env.rootSubLayerPaths) ∧
    r.rootSubLayerPaths =
      registerSublayer env.rootSubLayerPaths (live_url base iot_topic) ∧
    ((fun p => registerSublayer p (live_url base iot_topic))^[n]
      env.rootSubLayerPaths).count (live_url base iot_topic) ≤ 1 := by
  have hiter : ∀ (m : Nat) (p : List String),
      p.count (live_url base iot_topic) ≤ 1 →
      ((fun q => registerSublayer q (live_url base iot_topic))^[m] p).count
        (live_url base iot_topic) ≤ 1 := by
    intro m
    induction m with
    | zero => intro p hp; simpa using hp
    | succ k ih =>
      intro p hp
      rw [Function.iterate_succ_apply]
      exact ih _ (registerSublayer_count p (live_url base iot_topic) hp)
  unfold initialize_async at h
  split at h
  · exact absurd h (by simp)
  · split at h
    · exact absurd h (by simp)
    · split at h
      · exact absurd h (by simp)
      · rename_i live live2 hinit
        cases h
        refine ⟨?_, rfl, hiter n env.rootSubLayerPaths hcount⟩
        simp only [Bool.not_eq_true', List.any_eq_false, decide_eq_true_eq]
        constructor
        · intro hall hmem
          exact hall _ hmem rfl
        · intro hnot x hx hcon
          exact hnot (hcon ▸ hx)

end ClaimC10

/-- Witness for C10 at a concrete environment with an empty sublayer
list, three repeated registrations, and a one-row CSV. -/
theorem initialize_async_sublayer_unique_witness :
    ((InitResult.mk false false
        ["omniverse://localhost/Projects/IoT/Samples/HeadlessApp/A08_PR_NVD_01.live"]
        true
        (Layer.mk true true
          [⟨"_ts", "double", none⟩, ⟨"A", "double", none⟩])).rootSaved =
          true ↔
      live_url "omniverse://localhost/Projects/IoT/Samples/HeadlessApp"
          "A08_PR_NVD_01" ∉
        (Env.mk true true true [] true true
          (Layer.mk true false [])).rootSubLayerPaths) ∧
    (InitResult.mk false false
        ["omniverse://localhost/Projects/IoT/Samples/HeadlessApp/A08_PR_NVD_01.live"]
        true
        (Layer.mk true true
          [⟨"_ts", "double", none⟩, ⟨"A", "double", none⟩])).rootSubLayerPaths =
      registerSublayer
        (Env.mk true true true [] true true
          (Layer.mk true false [])).rootSubLayerPaths
        (live_url "omniverse://localhost/Projects/IoT/Samples/HeadlessApp"
          "A08_PR_NVD_01") ∧
    ((fun p => registerSublayer p
        (live_url "omniverse://localhost/Projects/IoT/Samples/HeadlessApp"
          "A08_PR_NVD_01"))^[3]
      (Env.mk true true true [] true true
        (Layer.mk true false [])).rootSubLayerPaths).count
      (live_url "omniverse://localhost/Projects/IoT/Samples/HeadlessApp"
        "A08_PR_NVD_01") ≤ 1 :=
  initialize_async_sublayer_unique
    (Env.mk true true true [] true true (Layer.mk true false []))
    "omniverse://localhost/Projects/IoT/Samples/HeadlessApp" "A08_PR_NVD_01"
    [⟨"A", 0, 1⟩]
    (InitResult.mk false false
      ["omniverse://localhost/Projects/IoT/Samples/HeadlessApp/A08_PR_NVD_01.live"]
      true
      (Layer.mk true true
        [⟨"_ts", "double", none⟩, ⟨"A", "double", none⟩]))
    (by rfl) 3 (by simp)
